import Mathlib

/-!
Verification of the table-extraction and normalization pipeline of the
Web-Scraping-Python-Project repository: the fetch/retry loop, the heuristic
table selector, the numeric coercion functions, the LDCP derivation, the
URL deduplication loop, and the headline collector, shallowly embedded from
the Python sources (task1_dawn.py, task2_PSX.py, task4_Daraz.py,
task5_GoodReads.py).

Modelling conventions. Python float values are modelled by PyNum: finite
doubles are carried as exact rationals (repr of a finite double re-parses to
the same double, so string round-trips are the identity on finite values,
which the exact-rational model reflects); float overflow on parsing is
modelled by comparing with the IEEE double overflow threshold. Cells of a
pandas frame are Cell: pd.NA, a float, or a raw string. Exceptions that the
source catches are modelled by Option results at the raising operation; a
function whose every exception is caught in the source is total here.
-/

set_option exponentiation.threshold 2000
set_option maxRecDepth 10000

namespace Scrape

/-- A Python float: an exact rational for a finite double, or inf, -inf, nan. -/
inductive PyNum where
  | finite (q : ℚ)
  | inf
  | ninf
  | nan
  deriving DecidableEq, Repr

/-- Values at or above this bound round to +inf when Python parses a float:
the IEEE binary64 overflow threshold, halfway past the largest finite double. -/
def overflowBound : ℚ := mkRat (((2 : ℕ) ^ 1024 - (2 : ℕ) ^ 970 : ℕ) : ℤ) 1

/-- The negated overflow threshold, below which parsing rounds to -inf. -/
def negOverflowBound : ℚ := mkRat (-(((2 : ℕ) ^ 1024 - (2 : ℕ) ^ 970 : ℕ) : ℤ)) 1

/-- Classify an exactly parsed rational as the Python float it becomes. -/
def floatOfRat (q : ℚ) : PyNum :=
  if overflowBound ≤ q then PyNum.inf
  else if q ≤ negOverflowBound then PyNum.ninf
  else PyNum.finite q

/-- Value of a list of decimal digit characters. -/
def digitsToNat (ds : List Char) : Nat :=
  ds.foldl (fun acc c => 10 * acc + (c.toNat - '0'.toNat)) 0

/-- Leading digit run of a character list, with the rest. -/
def spanDigits (cs : List Char) : List Char × List Char :=
  (cs.takeWhile Char.isDigit, cs.dropWhile Char.isDigit)

/-- Consume one optional leading sign; true means negative. -/
def parseSign : List Char → Bool × List Char
  | '+' :: cs => (false, cs)
  | '-' :: cs => (true, cs)
  | cs => (false, cs)

/-- Exact rational value of a signed decimal numeral: digits ds with the last
fracLen of them after the decimal point, scaled by ten to the ex, negated
when neg. Built with mkRat over integer arithmetic so that it evaluates
inside the kernel. -/
def decimalValue (neg : Bool) (ds : List Char) (fracLen : Nat) (ex : ℤ) : ℚ :=
  let n : ℤ := (digitsToNat ds : ℤ) * ((10 ^ (ex - (fracLen : ℤ)).toNat : ℕ) : ℤ)
  let d : ℕ := 10 ^ ((fracLen : ℤ) - ex).toNat
  mkRat (if neg then -n else n) d

/-- Exponent-and-end part of the Python float grammar: either the end of the
input, or e/E, an optional sign and a nonempty digit run ending the input. -/
def parseExpPart (neg : Bool) (ds : List Char) (fracLen : Nat) : List Char → Option ℚ
  | [] => some (decimalValue neg ds fracLen 0)
  | e :: r =>
      if e = 'e' ∨ e = 'E' then
        let (eneg, r2) := parseSign r
        let (ed, r3) := spanDigits r2
        if ed.isEmpty ∨ ¬ r3.isEmpty then none
        else
          let ev : ℤ := if eneg then -(digitsToNat ed : ℤ) else (digitsToNat ed : ℤ)
          some (decimalValue neg ds fracLen ev)
      else none

/-- Python float(s) on a string of digits, signs, dots and e/E (the alphabet
the cleaning regex of task2 leaves behind): an optional sign, then
digits with an optional dot and fractional digits (at least one digit in
total), then an optional exponent; the whole input must be consumed.
Returns the exact rational value, none where float(s) raises ValueError. -/
def pyFloatParse (cs : List Char) : Option ℚ :=
  let (neg, cs1) := parseSign cs
  let (d1, r1) := spanDigits cs1
  match r1 with
  | '.' :: r2 =>
      let (d2, r3) := spanDigits r2
      if d1.isEmpty ∧ d2.isEmpty then none
      else parseExpPart neg (d1 ++ d2) d2.length r3
  | _ =>
      if d1.isEmpty then none
      else parseExpPart neg d1 0 r1

/-- A cell of a scraped frame: pd.NA, a Python float, or a raw string. -/
inductive Cell where
  | na
  | num (v : PyNum)
  | s (t : String)
  deriving DecidableEq, Repr

/-- Characters kept by task2 _num_cleaner = re.compile(r"[^0-9+\-\.eE]"),
which substitutes everything else (commas included) with the empty string. -/
def keptByCleaner (c : Char) : Bool :=
  c.isDigit || c = '+' || c = '-' || c = '.' || c = 'e' || c = 'E'

/-- Python str.strip on the ASCII whitespace that occurs in scraped cells. -/
def trimChars (cs : List Char) : List Char :=
  ((cs.dropWhile Char.isWhitespace).reverse.dropWhile Char.isWhitespace).reverse

/-- task2_PSX.py _to_float. The pd.isna guard maps pd.NA and nan to NA.
On a float input, str(x) reprs it: a finite double re-parses to itself, while
"inf" and "-inf" lose their letters to the cleaner and fall into the
early-return set ("" and "-"). On a string input: strip; early-return NA on
"", "-", "--"; drop commas and every character the cleaner rejects;
early-return NA on "", "+", "-"; then float(s), with ValueError caught to NA
and overflow rounding to the infinities. -/
def _to_float : Cell → Cell
  | .na => .na
  | .num .nan => .na
  | .num (.finite q) => .num (.finite q)
  | .num .inf => .na
  | .num .ninf => .na
  | .s t =>
      let s := trimChars t.toList
      if s = [] ∨ s = ['-'] ∨ s = ['-', '-'] then .na
      else
        let s2 := s.filter keptByCleaner
        if s2 = [] ∨ s2 = ['+'] ∨ s2 = ['-'] then .na
        else
          match pyFloatParse s2 with
          | some q => .num (floatOfRat q)
          | none => .na

/-- One attempt of the regex -?\d+(?:\.\d+)?\s*% of task2 _to_percent at the
head of the input: optional minus, a nonempty digit run, an optional dot with
a nonempty digit run, any whitespace, then a percent sign. Gives the sign and
the integer and fractional digit runs of the match. -/
def pctMatchAt (cs : List Char) : Option (Bool × List Char × List Char) :=
  let (neg, r0) :=
    match cs with
    | '-' :: r => (true, r)
    | r => (false, r)
  let (d1, r1) := spanDigits r0
  if d1.isEmpty then none
  else
    let (d2, r2) :=
      match r1 with
      | '.' :: rr =>
          let (dd, rrr) := spanDigits rr
          if dd.isEmpty then (([] : List Char), r1) else (dd, rrr)
      | _ => (([] : List Char), r1)
    match r2.dropWhile Char.isWhitespace with
    | '%' :: _ => some (neg, d1, d2)
    | _ => none

/-- re.search for the percent pattern: the leftmost position where it matches. -/
def pctScan : List Char → Option (Bool × List Char × List Char)
  | [] => none
  | c :: cs =>
      match pctMatchAt (c :: cs) with
      | some r => some r
      | none => pctScan cs

/-- task2_PSX.py _to_percent: pd.isna guard, then search the string form for a
signed decimal immediately before a percent sign and take its float (which
always parses; huge digit runs overflow to inf); with no such match, fall
back to _to_float. A float input reprs without a percent sign, so it always
takes the fallback. -/
def _to_percent : Cell → Cell
  | .na => .na
  | .num .nan => .na
  | .num v => _to_float (.num v)
  | .s t =>
      match pctScan t.toList with
      | some (neg, d1, d2) => .num (floatOfRat (decimalValue neg (d1 ++ d2) d2.length 0))
      | none => _to_float (.s t)

/-- A digit-or-comma character, the continuation class of the regex
\d[\d,]* of task5 parse_int. -/
def isDigitOrComma (c : Char) : Bool := c.isDigit || c = ','

/-- re.findall(r"\d[\d,]*", s), one character at a time: outside a match, a
digit opens one (nothing else can); inside a match, digits and commas extend
it greedily and any other character closes it. The run argument carries the
open match reversed. -/
def digitGroupsAux : List Char → Option (List Char) → List (List Char)
  | [], none => []
  | [], some run => [run.reverse]
  | c :: cs, none =>
      if c.isDigit then digitGroupsAux cs (some [c]) else digitGroupsAux cs none
  | c :: cs, some run =>
      if isDigitOrComma c then digitGroupsAux cs (some (c :: run))
      else run.reverse :: digitGroupsAux cs none

/-- re.findall(r"\d[\d,]*", s): every non-overlapping, left-to-right greedy
run that starts with a digit and continues over digits and commas. -/
def digitGroups (cs : List Char) : List (List Char) := digitGroupsAux cs none

/-- Preprocessing of task5 parse_int: drop narrow no-break spaces, turn
no-break spaces into plain spaces. -/
def pintPrep (s : String) : List Char :=
  (s.toList.filter (fun c => c ≠ ' ')).map (fun c => if c = ' ' then ' ' else c)

/-- Integer value of one matched group with its commas removed; the group
starts with a digit, so int() on it never fails. -/
def groupToNat (g : List Char) : Nat := digitsToNat (g.filter (fun c => c ≠ ','))

/-- The integer task5 parse_int builds: the value of the last digit group. -/
def lastGroupInt (s : String) : Option Nat :=
  (digitGroups (pintPrep s)).getLast?.map groupToNat

/-- task5_GoodReads.py parse_int: None on the empty string, else find all
digit-comma groups in the preprocessed string and take int of the last one. -/
def parse_int (s : String) : Option Nat :=
  if s = "" then none
  else
    match (digitGroups (pintPrep s)).getLast? with
    | none => none
    | some g => some (groupToNat g)

/-- re.search(r"(\d+\.\d+|\d+)", s): at the leftmost digit, the greedy digit
run, extended over a dot and a second digit run when one follows. -/
def firstNumMatch : List Char → Option (List Char × List Char)
  | [] => none
  | c :: cs =>
      if c.isDigit then
        let d1 := c :: cs.takeWhile Char.isDigit
        match cs.dropWhile Char.isDigit with
        | '.' :: r2 =>
            let d2 := r2.takeWhile Char.isDigit
            if d2.isEmpty then some (d1, []) else some (d1, d2)
        | _ => some (d1, [])
      else firstNumMatch cs

/-- The float value of one first match. -/
def matchVal (m : List Char × List Char) : PyNum :=
  floatOfRat (decimalValue false (m.1 ++ m.2) m.2.length 0)

/-- The number task5 parse_float builds: the value of the first regex match. -/
def firstMatchFloat (s : String) : Option PyNum :=
  (firstNumMatch s.toList).map matchVal

/-- task5_GoodReads.py parse_float: None on the empty string, else float of
the first (\d+\.\d+|\d+) match; the matched text always parses, overflowing
digit runs round to inf. -/
def parse_float (s : String) : Option PyNum :=
  if s = "" then none
  else
    match firstNumMatch s.toList with
    | none => none
    | some m => some (matchVal m)

/-- One HTTP attempt as the Fetcher sees it: a response bearing a status
code and body, or a connection failure/timeout (requests.get raising a
RequestException). -/
inductive Resp where
  | http (status : Nat) (body : String)
  | netErr
  deriving DecidableEq, Repr

/-- The transient status set of get_html (task1_dawn.py line 33 and
task2_PSX.py line 35). -/
def transientStatus (st : Nat) : Bool :=
  st = 403 || st = 429 || st = 502 || st = 503 || st = 504

/-- Outcome of get_html together with how many HTTP attempts were made. -/
structure FetchResult where
  outcome : Except String String
  attemptsMade : Nat
  deriving Repr

/-- The retry loop of get_html (task1_dawn.py and task2_PSX.py, identical
logic): attempt is the current 0-indexed attempt number, rem the attempts
left, resp the network oracle giving each attempt its result. A 200 returns
the body at once. A transient status sleeps with backoff and continues the
loop. Any other status reaches r.raise_for_status(): for a 4xx/5xx status
that raises HTTPError - a RequestException - which the except clause below
catches (records last_err, sleeps, and the loop continues); for a non-error
status it returns None and the loop also falls through to the next attempt.
A network error is caught by the same except clause. When the attempts run
out the function raises RuntimeError. -/
def get_html_loop (resp : Nat → Resp) : Nat → Nat → FetchResult
  | attempt, 0 => ⟨.error "Failed to fetch", attempt⟩
  | attempt, rem + 1 =>
      match resp attempt with
      | .http 200 body => ⟨.ok body, attempt + 1⟩
      | .http st _ =>
          if transientStatus st then get_html_loop resp (attempt + 1) rem
          else get_html_loop resp (attempt + 1) rem
      | .netErr => get_html_loop resp (attempt + 1) rem

/-- get_html(url, retries=3, ...): run the attempt loop from attempt 0. -/
def get_html (resp : Nat → Resp) (retries : Nat) : FetchResult :=
  get_html_loop resp 0 retries

/-- A network oracle whose first attempt meets HTTP 404 - neither 200 nor in
the transient set - and whose second attempt meets HTTP 200. -/
def respOracle404 (i : Nat) : Resp :=
  if i = 0 then .http 404 "" else .http 200 "ok"

/-- One scraped headline row of task1_dawn.py parse_dawn_articles. -/
structure DawnRow where
  headline : String
  url : String
  deriving DecidableEq, Repr

/-- Result of one collection run. The exhausted constructor stands for the
fatal CollectionExhaustedError outcome named by the spec; the embedding
shows which of the two outcomes the source can produce. -/
inductive CollectResult where
  | ok (rows : List DawnRow)
  | exhausted
  deriving DecidableEq, Repr

/-- The endpoint loop of collect_dawn_headlines (task1_dawn.py lines 67-77):
pipeline stands for get_html followed by parse_dawn_articles on one URL,
returning the parsed rows or the exception the try block catches. On
success the rows extend the buffer and the loop breaks once the buffer
holds at least n rows; on failure the exception is printed as a [warn] line
and the loop proceeds to the next URL. -/
def collectLoop (pipeline : String → Except String (List DawnRow)) (n : Nat) :
    List String → List DawnRow → List DawnRow
  | [], acc => acc
  | u :: us, acc =>
      match pipeline u with
      | .ok rows =>
          let acc2 := acc ++ rows
          if n ≤ acc2.length then acc2 else collectLoop pipeline n us acc2
      | .error _ => collectLoop pipeline n us acc

/-- collect_dawn_headlines(n): run the loop over the endpoints and truncate
the buffer to n rows. The source then builds a DataFrame from the buffer
and returns it on every path - also when every endpoint failed and the
buffer is empty; no exception is ever raised by the collector itself. -/
def collect_dawn_headlines (pipeline : String → Except String (List DawnRow))
    (n : Nat) (urls : List String) : CollectResult :=
  .ok ((collectLoop pipeline n urls []).take n)

/-- One candidate table as pandas read_html hands it to the selector: its
column header labels and its data rows. -/
structure Candidate where
  headers : List String
  rows : List (List String)
  deriving DecidableEq, Repr

/-- needle occurs contiguously somewhere in hay: the Python in operator on
strings. -/
def hasSubstr (needle : List Char) : List Char → Bool
  | [] => needle.isEmpty
  | c :: cs => needle.isPrefixOf (c :: cs) || hasSubstr needle cs

/-- str(c).strip().lower() applied to one header label. -/
def normHeader (h : String) : List Char :=
  (trimChars h.toList).map Char.toLower

/-- The header tokens _pick_indices_table looks for (task2_PSX.py 76-81). -/
def expectedTokens : List String := ["index", "high", "low", "current", "change", "%"]

/-- How many normalized header labels of c contain the token t. -/
def tokenHits (t : String) (c : Candidate) : Nat :=
  (c.headers.filter (fun h => hasSubstr t.toList (normHeader h))).length

/-- The score of _pick_indices_table: the sum, over the six expected tokens,
of the number of header labels containing that token. -/
def candScore (c : Candidate) : Nat :=
  (expectedTokens.map (fun t => tokenHits t c)).sum

/-- The selection loop of _pick_indices_table: best_df and best_score start
as None and -1; a candidate replaces the current best exactly when its
score strictly exceeds best_score and it has at least one row. -/
def pickLoop : List Candidate → Option Candidate → Int → Option Candidate
  | [], best, _ => best
  | c :: cs, best, bestScore =>
      if bestScore < (candScore c : Int) ∧ 0 < c.rows.length then
        pickLoop cs (some c) (candScore c)
      else pickLoop cs best bestScore

/-- The RuntimeError message of _pick_indices_table. -/
def noMatchMsg : String := "Could not locate Indices table on DPS page."

/-- task2_PSX.py _pick_indices_table: run the loop over all candidates and
raise RuntimeError when no best was installed or the best is empty (the
second test is vacuous: the loop only installs candidates having rows). -/
def _pick_indices_table (cands : List Candidate) : Except String Candidate :=
  match pickLoop cands none (-1) with
  | none => .error noMatchMsg
  | some c => if c.rows.isEmpty then .error noMatchMsg else .ok c

/-- Once a best candidate is installed the loop never returns None. -/
theorem pickLoop_some_ne_none :
    ∀ (l : List Candidate) (b : Candidate) (s : Int), pickLoop l (some b) s ≠ none
  | [], _, _ => by simp [pickLoop]
  | c :: cs, b, s => by
      simp only [pickLoop]
      split
      · exact pickLoop_some_ne_none cs c _
      · exact pickLoop_some_ne_none cs b s

/-- Whatever the loop returns has at least one row, provided the incoming
best does. -/
theorem pickLoop_rows_ne_nil :
    ∀ (l : List Candidate) (best : Option Candidate) (s : Int) (c : Candidate),
      (∀ b, best = some b → b.rows ≠ []) →
      pickLoop l best s = some c → c.rows ≠ []
  | [], _, _, c, hinv, h => hinv c h
  | d :: ds, best, s, c, hinv, h => by
      simp only [pickLoop] at h
      split at h
      · rename_i hcond
        refine pickLoop_rows_ne_nil ds (some d) _ c ?_ h
        intro b hb
        injection hb with hb
        subst hb
        exact List.length_pos.mp hcond.2
      · exact pickLoop_rows_ne_nil ds best s c hinv h

/-- From the initial state the loop returns None exactly when every
candidate is rowless: with best_score = -1 any candidate with a row passes
the strict score test, its score being a natural number. -/
theorem pickLoop_none_iff :
    ∀ l : List Candidate, pickLoop l none (-1) = none ↔ ∀ c ∈ l, c.rows = []
  | [] => by simp [pickLoop]
  | d :: ds => by
      simp only [pickLoop]
      have hscore : (-1 : Int) < (candScore d : Int) := by omega
      by_cases hd : 0 < d.rows.length
      · rw [if_pos ⟨hscore, hd⟩]
        constructor
        · intro h
          exact absurd h (pickLoop_some_ne_none ds d _)
        · intro h
          have := h d (List.mem_cons_self d ds)
          rw [this] at hd
          simp at hd
      · rw [if_neg (by tauto)]
        rw [pickLoop_none_iff ds]
        constructor
        · intro h c hc
          rcases List.mem_cons.mp hc with hcd | hcds
          · subst hcd
            exact List.eq_nil_of_length_eq_zero (by omega)
          · exact h c hcds
        · intro h c hc
          exact h c (List.mem_cons_of_mem d hc)

/-- One product card of task4_Daraz.py parse_results_page_html, reduced to
the fields its dedup loop touches: the title and the normalized product
URL; productURL is "" when the card carries no link. -/
structure Item where
  title : String
  productURL : String
  deriving DecidableEq, Repr

/-- The dedup of parse_results_page_html (task4_Daraz.py lines 226-236):
the parsed cards are walked in order with a seen-set of hrefs; a card whose
href is nonempty and already seen is skipped, a nonempty unseen href is
added to the set and the card kept, and a card with empty href bypasses
both tests and is always kept. The same first-seen pattern dedups headline
rows by URL in task1_dawn.py lines 57-64, where every URL is nonempty. -/
def dedupeAux : List Item → List String → List Item
  | [], _ => []
  | x :: xs, seen =>
      if x.productURL ≠ "" ∧ x.productURL ∈ seen then dedupeAux xs seen
      else if x.productURL ≠ "" then x :: dedupeAux xs (x.productURL :: seen)
      else x :: dedupeAux xs seen

/-- The whole dedup pass, from an empty seen-set. -/
def dedupeItems (xs : List Item) : List Item := dedupeAux xs []

/-- Underscores in a Python numeric literal are legal only when directly
between two digits. -/
def underscoresBetweenDigits : List Char → Bool
  | [] => true
  | '_' :: _ => false
  | a :: '_' :: rest =>
      a.isDigit &&
        (match rest with
          | b :: _ => b.isDigit && underscoresBetweenDigits rest
          | [] => false)
  | _ :: rest => underscoresBetweenDigits rest

/-- Python float(x) on an arbitrary string: strip whitespace, read an
optional sign, accept the words inf, infinity and nan case-insensitively,
and otherwise the decimal grammar with single underscores permitted
between digits and removed before parsing. none models the ValueError
float() raises on anything else. -/
def pyFloatString (t : String) : Option PyNum :=
  let u := trimChars t.toList
  let (neg, v) := parseSign u
  let w := v.map Char.toLower
  if w = ['i', 'n', 'f'] ∨ w = ['i', 'n', 'f', 'i', 'n', 'i', 't', 'y'] then
    some (if neg then PyNum.ninf else PyNum.inf)
  else if w = ['n', 'a', 'n'] then some PyNum.nan
  else if underscoresBetweenDigits u then
    match pyFloatParse (u.filter (fun c => c ≠ '_')) with
    | some q => some (floatOfRat q)
    | none => none
  else none

/-- Python float(x) applied to a frame cell: a float passes through,
float(pd.NA) raises TypeError, and a string goes through float(str). -/
def pyFloatOfCell : Cell → Option PyNum
  | .na => none
  | .num v => some v
  | .s t => pyFloatString t

/-- Exact subtraction of two rationals by cross multiplication, through
mkRat so that it evaluates in the kernel. -/
def ratSub (a b : ℚ) : ℚ :=
  mkRat (a.num * (b.den : ℤ) - b.num * (a.den : ℤ)) (a.den * b.den)

/-- IEEE double subtraction on the PyNum model: nan is absorbing, equal
infinities give nan, an infinity dominates everything else, and a finite
difference is exact up to overflow into the infinities. -/
def pySub : PyNum → PyNum → PyNum
  | .nan, _ => .nan
  | _, .nan => .nan
  | .inf, .inf => .nan
  | .inf, _ => .inf
  | .ninf, .ninf => .nan
  | .ninf, _ => .ninf
  | .finite _, .inf => .ninf
  | .finite _, .ninf => .inf
  | .finite a, .finite b => floatOfRat (ratSub a b)

/-- pd.notna of one cell: false on pd.NA and on the float nan. -/
def pdNotna : Cell → Bool
  | .na => false
  | .num .nan => false
  | _ => true

/-- task2_PSX.py derive_ldcp on one row: when Current and Change are both
pd.notna, return float(cur) - float(chg), any exception (float() of a
non-numeric string cell) being caught to pd.NA; otherwise pd.NA. -/
def derive_ldcp (cur chg : Cell) : Cell :=
  if pdNotna cur && pdNotna chg then
    match pyFloatOfCell cur, pyFloatOfCell chg with
    | some a, some b => .num (pySub a b)
    | _, _ => .na
  else .na

/-- One record of the Indices frame over the canonical columns of
collect_indices_from_dps (task2_PSX.py line 108); openCol and volume stand
for the Open and Volume columns, renamed for Lean. -/
structure PSXRecord where
  indexName : Cell
  ldcp : Cell
  openCol : Cell
  high : Cell
  low : Cell
  current : Cell
  change : Cell
  changePct : Cell
  volume : Cell
  deriving DecidableEq, Repr

/-- The per-record reconciliation step of collect_indices_from_dps
(task2_PSX.py lines 94-146) on a full-schema record: the renaming of lines
94-104 maps canonical column names to themselves, missing canonical
columns are filled with NA by lines 109-111 (an identity on a full-schema
record), the four price columns go through _to_float and Change % through
_to_percent (lines 114-116), LDCP is derived from the coerced Current and
Change (line 128), Open and Volume are overwritten with NA (lines
131-132), and the final column selection of line 145 restores the
canonical order, an identity here. -/
def reconcileRecord (r : PSXRecord) : PSXRecord :=
  let high := _to_float r.high
  let low := _to_float r.low
  let current := _to_float r.current
  let change := _to_float r.change
  let changePct := _to_percent r.changePct
  { indexName := r.indexName
    ldcp := derive_ldcp current change
    openCol := Cell.na
    high := high
    low := low
    current := current
    change := change
    changePct := changePct
    volume := Cell.na }

/-- A cell in the finite-or-NA fragment, on which the coercions are fixed
points. -/
def cellFiniteOrNA : Cell → Bool
  | .na => true
  | .num (.finite _) => true
  | _ => false

/-- Every coercion output is NA, a finite number, or an infinity - never a
raw string and never nan. -/
theorem to_float_shape (x : Cell) :
    _to_float x = Cell.na ∨ ∃ v, _to_float x = Cell.num v ∧ v ≠ PyNum.nan := by
  cases x with
  | na => exact Or.inl rfl
  | num v =>
      cases v with
      | finite q => exact Or.inr ⟨PyNum.finite q, rfl, by simp⟩
      | inf => exact Or.inl rfl
      | ninf => exact Or.inl rfl
      | nan => exact Or.inl rfl
  | s t =>
      simp only [_to_float]
      split
      · exact Or.inl rfl
      · split
        · exact Or.inl rfl
        · split
          · rename_i q _
            refine Or.inr ⟨floatOfRat q, rfl, ?_⟩
            unfold floatOfRat
            split
            · simp
            · split <;> simp
          · exact Or.inl rfl

/-- Classification never produces nan. -/
theorem floatOfRat_ne_nan (q : ℚ) : floatOfRat q ≠ PyNum.nan := by
  unfold floatOfRat
  split
  · simp
  · split <;> simp

/-- The percent coercion also outputs only NA or a non-nan number. -/
theorem to_percent_shape (x : Cell) :
    _to_percent x = Cell.na ∨ ∃ v, _to_percent x = Cell.num v ∧ v ≠ PyNum.nan := by
  cases x with
  | na => exact Or.inl rfl
  | num v =>
      cases v with
      | finite q => exact Or.inr ⟨PyNum.finite q, rfl, by simp⟩
      | inf => exact Or.inl rfl
      | ninf => exact Or.inl rfl
      | nan => exact Or.inl rfl
  | s t =>
      simp only [_to_percent]
      cases h : pctScan t.toList with
      | some r =>
          obtain ⟨neg, d1, d2⟩ := r
          exact Or.inr ⟨_, rfl, floatOfRat_ne_nan _⟩
      | none => exact to_float_shape (Cell.s t)

/-- Whatever the loop returns scores at least the incoming best score and
at least every rowed candidate of the remaining list. -/
theorem pickLoop_max :
    ∀ (l : List Candidate) (best : Option Candidate) (s : Int) (c : Candidate),
      (∀ b, best = some b → s ≤ (candScore b : Int)) →
      pickLoop l best s = some c →
      s ≤ (candScore c : Int) ∧ ∀ d ∈ l, d.rows ≠ [] → candScore d ≤ candScore c
  | [], _, s, c, hinv, h => by
      refine ⟨hinv c h, ?_⟩
      intro d hd
      simp at hd
  | x :: xs, best, s, c, hinv, h => by
      simp only [pickLoop] at h
      split at h
      · rename_i hcond
        have ih := pickLoop_max xs (some x) (candScore x) c
          (fun b hb => by injection hb with hb; subst hb; exact le_refl _) h
        have hxc : (candScore x : Int) ≤ (candScore c : Int) := ih.1
        refine ⟨le_trans (le_of_lt hcond.1) hxc, ?_⟩
        intro d hd hdrows
        rcases List.mem_cons.mp hd with hdx | hdxs
        · subst hdx
          exact_mod_cast hxc
        · exact ih.2 d hdxs hdrows
      · rename_i hcond
        have ih := pickLoop_max xs best s c hinv h
        refine ⟨ih.1, ?_⟩
        intro d hd hdrows
        rcases List.mem_cons.mp hd with hdx | hdxs
        · subst hdx
          have hlen : 0 < d.rows.length := List.length_pos.mpr hdrows
          have hle : (candScore d : Int) ≤ s := by
            by_contra hgt
            exact hcond ⟨by omega, hlen⟩
          have : (candScore d : Int) ≤ (candScore c : Int) := le_trans hle ih.1
          exact_mod_cast this
        · exact ih.2 d hdxs hdrows

/-- Whatever the loop returns is either the incoming best, or the first
list element that attains the final score: it sits in the list, has rows,
strictly beats the incoming score, and strictly beats every earlier rowed
element. -/
theorem pickLoop_first_seen :
    ∀ (l : List Candidate) (best : Option Candidate) (s : Int) (c : Candidate),
      pickLoop l best s = some c →
      best = some c ∨
      ∃ i, l.get? i = some c ∧ c.rows ≠ [] ∧ s < (candScore c : Int) ∧
        ∀ j, j < i → ∀ d, l.get? j = some d → d.rows ≠ [] → candScore d < candScore c
  | [], _, _, _, h => Or.inl h
  | x :: xs, best, s, c, h => by
      simp only [pickLoop] at h
      split at h
      · rename_i hcond
        rcases pickLoop_first_seen xs (some x) (candScore x) c h with hxc | ⟨i, hi, hrows, hs, hprev⟩
        · injection hxc with hxc
          subst hxc
          refine Or.inr ⟨0, rfl, List.length_pos.mp hcond.2, hcond.1, ?_⟩
          intro j hj
          omega
        · refine Or.inr ⟨i + 1, by simpa using hi, hrows, lt_trans hcond.1 hs, ?_⟩
          intro j hj d hd hdrows
          cases j with
          | zero =>
              simp at hd
              subst hd
              exact_mod_cast hs
          | succ j' =>
              exact hprev j' (by omega) d (by simpa using hd) hdrows
      · rename_i hcond
        rcases pickLoop_first_seen xs best s c h with hbc | ⟨i, hi, hrows, hs, hprev⟩
        · exact Or.inl hbc
        · refine Or.inr ⟨i + 1, by simpa using hi, hrows, hs, ?_⟩
          intro j hj d hd hdrows
          cases j with
          | zero =>
              simp at hd
              subst hd
              have hlen : 0 < x.rows.length := List.length_pos.mpr hdrows
              have hle : (candScore x : Int) ≤ s := by
                by_contra hgt
                exact hcond ⟨by omega, hlen⟩
              have hlt : (candScore x : Int) < (candScore c : Int) := lt_of_le_of_lt hle hs
              exact_mod_cast hlt
          | succ j' =>
              exact hprev j' (by omega) d (by simpa using hd) hdrows

/-- C3, selector failure condition, amended: _pick_indices_table raises its
RuntimeError exactly when every candidate has zero rows (in particular when
the list is empty) - not when every candidate has zero matching tokens:
with best_score initialized to -1, a non-empty candidate whose score is 0
is still installed and returned. -/
theorem c3_fails_iff_all_candidates_rowless (cands : List Candidate) :
    _pick_indices_table cands = Except.error noMatchMsg ↔ ∀ c ∈ cands, c.rows = [] := by
  unfold _pick_indices_table
  cases hp : pickLoop cands none (-1) with
  | none =>
      simpa using (pickLoop_none_iff cands).mp hp
  | some c =>
      have hrows : c.rows ≠ [] :=
        pickLoop_rows_ne_nil cands none (-1) c (fun b hb => nomatch hb) hp
      have hne : ¬ (∀ d ∈ cands, d.rows = []) := by
        intro hall
        rw [(pickLoop_none_iff cands).mpr hall] at hp
        exact nomatch hp
      simp only [List.isEmpty_iff]
      rw [if_neg hrows]
      simp [hne]

/-- C3 counterexample to the claim as stated: a single candidate with a
data row and zero matching expected tokens is returned, not rejected with
NoMatchError. -/
theorem c3_counterexample :
    candScore ⟨["Name", "Value"], [["a", "b"]]⟩ = 0 ∧
    _pick_indices_table [⟨["Name", "Value"], [["a", "b"]]⟩] =
      Except.ok ⟨["Name", "Value"], [["a", "b"]]⟩ :=
  ⟨by decide, rfl⟩

/-- C4, selector scoring, amended: when the selector returns a candidate,
that candidate has at least one row, its score - the count of
(expected token, header label) containments - is maximal among candidates
having at least one row, and every earlier candidate with at least one row
scores strictly less, so it is the first-seen maximum; zero-row candidates
are never returned even when their score is maximal. Determinism holds
since the selector is a pure function of its input. -/
theorem c4_first_seen_max_score (cands : List Candidate) (c : Candidate)
    (h : _pick_indices_table cands = Except.ok c) :
    ∃ i, cands.get? i = some c ∧ c.rows ≠ [] ∧
      (∀ d ∈ cands, d.rows ≠ [] → candScore d ≤ candScore c) ∧
      ∀ j, j < i → ∀ d, cands.get? j = some d → d.rows ≠ [] → candScore d < candScore c := by
  unfold _pick_indices_table at h
  split at h
  · exact nomatch h
  · rename_i c' hp
    split at h
    · exact nomatch h
    · injection h with h'
      subst h'
      have hmax := pickLoop_max cands none (-1) c' (fun b hb => nomatch hb) hp
      rcases pickLoop_first_seen cands none (-1) c' hp with hbc | ⟨i, hi, hrows, _, hprev⟩
      · exact nomatch hbc
      · exact ⟨i, hi, hrows, hmax.2, hprev⟩

/-- C4 witness: the amended property instantiated on two concrete rowed
candidates, the first scoring 1 and the second 0. -/
theorem c4_witness :
    ∃ i, [Candidate.mk ["Index"] [["1"]], Candidate.mk ["Name"] [["2"]]].get? i =
        some (Candidate.mk ["Index"] [["1"]]) ∧
      (Candidate.mk ["Index"] [["1"]]).rows ≠ [] ∧
      (∀ d ∈ [Candidate.mk ["Index"] [["1"]], Candidate.mk ["Name"] [["2"]]],
        d.rows ≠ [] → candScore d ≤ candScore (Candidate.mk ["Index"] [["1"]])) ∧
      ∀ j, j < i → ∀ d,
        [Candidate.mk ["Index"] [["1"]], Candidate.mk ["Name"] [["2"]]].get? j = some d →
        d.rows ≠ [] → candScore d < candScore (Candidate.mk ["Index"] [["1"]]) :=
  c4_first_seen_max_score
    [Candidate.mk ["Index"] [["1"]], Candidate.mk ["Name"] [["2"]]]
    (Candidate.mk ["Index"] [["1"]]) rfl

/-- C4 counterexample to the claim as stated: among a rowless candidate
matching five expected tokens and a rowed candidate matching none, the
selector returns the rowed zero-score candidate, not a candidate of
maximal score. -/
theorem c4_counterexample :
    _pick_indices_table
        [Candidate.mk ["Index", "High", "Low", "Current", "Change"] [],
         Candidate.mk ["Name"] [["x"]]] =
      Except.ok (Candidate.mk ["Name"] [["x"]]) ∧
    candScore (Candidate.mk ["Name"] [["x"]]) <
      candScore (Candidate.mk ["Index", "High", "Low", "Current", "Change"] []) :=
  ⟨rfl, by decide⟩

/-- C1, collector containment, amended: a failing endpoint is skipped and
the collector moves on to the remaining endpoints unchanged; and the
collector never produces the fatal exhausted outcome - on any endpoint
list, also one whose endpoints all fail, it returns an ordinary (possibly
empty) record list. -/
theorem c1_collector_proceeds_and_never_raises
    (pipeline : String → Except String (List DawnRow)) (n : Nat)
    (u : String) (us : List String) (e : String) (h : pipeline u = .error e) :
    collect_dawn_headlines pipeline n (u :: us) = collect_dawn_headlines pipeline n us ∧
    ∀ urls : List String, ∃ rows,
      collect_dawn_headlines pipeline n urls = CollectResult.ok rows := by
  constructor
  · unfold collect_dawn_headlines
    have hl : collectLoop pipeline n (u :: us) [] = collectLoop pipeline n us [] := by
      simp only [collectLoop, h]
    rw [hl]
  · intro urls
    exact ⟨_, rfl⟩

/-- C1 witness: the amended theorem at a concrete always-failing pipeline
over the two source endpoints. -/
theorem c1_witness :
    collect_dawn_headlines (fun _ => Except.error "boom") 30
        ["https://www.dawn.com", "https://www.dawn.com/latest-news"] =
      collect_dawn_headlines (fun _ => Except.error "boom") 30
        ["https://www.dawn.com/latest-news"] ∧
    ∀ urls : List String, ∃ rows,
      collect_dawn_headlines (fun _ => Except.error "boom") 30 urls =
        CollectResult.ok rows :=
  c1_collector_proceeds_and_never_raises (fun _ => Except.error "boom") 30
    "https://www.dawn.com" ["https://www.dawn.com/latest-news"] "boom" rfl

/-- C1 counterexample to the claim as stated: both endpoints fail, the
buffer stays empty, and still the collector returns an ordinary empty
result rather than the fatal exhausted outcome. -/
theorem c1_counterexample :
    collect_dawn_headlines (fun _ => Except.error "fetch failed") 30
        ["https://www.dawn.com", "https://www.dawn.com/latest-news"] =
      CollectResult.ok [] ∧
    CollectResult.ok ([] : List DawnRow) ≠ CollectResult.exhausted :=
  ⟨rfl, by simp⟩

/-- C2: with retries=3, a first attempt answering HTTP 404 - neither 200
nor in the transient set - does not make get_html fail immediately: the
HTTPError raised by raise_for_status is caught by the except clause of the
same loop, a second attempt is made, and its 200 body is returned. The
claim (and the spec) say a non-transient status fails at once with no
further attempt; the code retries every failure class. -/
theorem c2_nontransient_status_is_retried :
    transientStatus 404 = false ∧
    get_html respOracle404 3 = ⟨Except.ok "ok", 2⟩ :=
  ⟨rfl, rfl⟩

/-- C5, coercion totality, amended: on every string input the coercions
return NA or a numeric value and never raise - but the numeric value need
not be finite (see the counterexample); it is never nan, and the integer
coercion returns plain integers. Totality is expressed by the functions
being plain total functions whose every exception-raising sub-step
(float(s), int(s)) is modelled with its handler from the source. -/
theorem c5_total_never_nan (t : String) :
    (_to_float (Cell.s t) = Cell.na ∨
      ∃ v, _to_float (Cell.s t) = Cell.num v ∧ v ≠ PyNum.nan) ∧
    (_to_percent (Cell.s t) = Cell.na ∨
      ∃ v, _to_percent (Cell.s t) = Cell.num v ∧ v ≠ PyNum.nan) ∧
    (parse_int t = none ∨ ∃ n, parse_int t = some n) := by
  refine ⟨to_float_shape _, to_percent_shape _, ?_⟩
  cases h : parse_int t with
  | none => exact Or.inl rfl
  | some n => exact Or.inr ⟨n, rfl⟩

/-- C5 witness: the totality statement at the concrete garbage input "--". -/
theorem c5_witness :
    (_to_float (Cell.s "--") = Cell.na ∨
      ∃ v, _to_float (Cell.s "--") = Cell.num v ∧ v ≠ PyNum.nan) ∧
    (_to_percent (Cell.s "--") = Cell.na ∨
      ∃ v, _to_percent (Cell.s "--") = Cell.num v ∧ v ≠ PyNum.nan) ∧
    (parse_int "--" = none ∨ ∃ n, parse_int "--" = some n) :=
  c5_total_never_nan "--"

/-- C5 counterexample to the claim as stated: Python float("1e999") is the
infinity inf, so _to_float("1e999") returns a value that is neither finite
nor the Absent marker. -/
theorem c5_counterexample :
    _to_float (Cell.s "1e999") = Cell.num PyNum.inf ∧
    (∀ q : ℚ, Cell.num PyNum.inf ≠ Cell.num (PyNum.finite q)) ∧
    Cell.num PyNum.inf ≠ Cell.na := by
  refine ⟨by decide, fun q => by simp, by simp⟩

/-- C6: the round-trip values of the spec, on the exact functions of the
source: toFloat("1,234.50") = 1234.5, toPercentage("-3.2%") = -3.2,
toInteger("12,000") = 12000, toFloat("--") = Absent, toFloat("") = Absent. -/
theorem c6_round_trips :
    _to_float (Cell.s "1,234.50") = Cell.num (PyNum.finite 1234.5) ∧
    _to_percent (Cell.s "-3.2%") = Cell.num (PyNum.finite (-3.2)) ∧
    parse_int "12,000" = some 12000 ∧
    _to_float (Cell.s "--") = Cell.na ∧
    _to_float (Cell.s "") = Cell.na := by
  refine ⟨?_, ?_, by decide, by decide, by decide⟩
  · have h : _to_float (Cell.s "1,234.50") =
        Cell.num (PyNum.finite (mkRat 2469 2)) := by decide
    rw [h, Rat.mkRat_eq_divInt, Rat.divInt_eq_div]; norm_num
  · have h : _to_percent (Cell.s "-3.2%") =
        Cell.num (PyNum.finite (mkRat (-16) 5)) := by decide
    rw [h, Rat.mkRat_eq_divInt, Rat.divInt_eq_div]; norm_num

/-- A non-nan float is pd.notna. -/
theorem pdNotna_num (v : PyNum) (h : v ≠ PyNum.nan) : pdNotna (Cell.num v) = true := by
  cases v with
  | finite q => rfl
  | inf => rfl
  | ninf => rfl
  | nan => exact absurd rfl h

/-- C7: on normalized cells - the state of Current and Change at the point
derive_ldcp runs, after the _to_float column maps - LDCP is the float
difference Current - Change whenever both are present, and Absent as soon
as either is Absent; no other value is ever substituted. -/
theorem c7_derive_ldcp (x y : Cell) :
    (∀ a b, _to_float x = Cell.num a → _to_float y = Cell.num b →
      derive_ldcp (_to_float x) (_to_float y) = Cell.num (pySub a b)) ∧
    ((_to_float x = Cell.na ∨ _to_float y = Cell.na) →
      derive_ldcp (_to_float x) (_to_float y) = Cell.na) := by
  constructor
  · intro a b ha hb
    rcases to_float_shape x with hx | ⟨vx, hx, hvx⟩
    · rw [hx] at ha
      exact nomatch ha
    · rcases to_float_shape y with hy | ⟨vy, hy, hvy⟩
      · rw [hy] at hb
        exact nomatch hb
      · rw [hx] at ha ⊢
        rw [hy] at hb ⊢
        injection ha with ha
        injection hb with hb
        subst ha
        subst hb
        simp [derive_ldcp, pdNotna_num vx hvx, pdNotna_num vy hvy, pyFloatOfCell]
  · intro hna
    rcases hna with hx | hy
    · rw [hx]
      rfl
    · rw [hy]
      unfold derive_ldcp
      rw [show pdNotna Cell.na = false from rfl, Bool.and_false]
      rfl

/-- The dedup output is a sublist of its input. -/
theorem dedupeAux_sublist :
    ∀ (xs : List Item) (seen : List String), List.Sublist (dedupeAux xs seen) xs
  | [], _ => List.Sublist.refl _
  | x :: xs, seen => by
      simp only [dedupeAux]
      split
      · exact List.Sublist.cons x (dedupeAux_sublist xs seen)
      · split
        · exact List.Sublist.cons₂ x (dedupeAux_sublist xs _)
        · exact List.Sublist.cons₂ x (dedupeAux_sublist xs seen)

/-- The dedup keeps every record whose key is empty. -/
theorem dedupeAux_keeps_keyless :
    ∀ (xs : List Item) (seen : List String),
      (dedupeAux xs seen).filter (fun x => x.productURL == "") =
        xs.filter (fun x => x.productURL == "")
  | [], _ => rfl
  | x :: xs, seen => by
      simp only [dedupeAux]
      split
      · rename_i hcond
        have hx : (x.productURL == "") = false := beq_eq_false_iff_ne.mpr hcond.1
        simp only [List.filter_cons, hx, Bool.false_eq_true, if_false]
        exact dedupeAux_keeps_keyless xs seen
      · split
        · rename_i hne
          have hx : (x.productURL == "") = false := beq_eq_false_iff_ne.mpr hne
          simp only [List.filter_cons, hx, Bool.false_eq_true, if_false]
          exact dedupeAux_keeps_keyless xs _
        · rename_i hne
          have hemp : x.productURL = "" := by
            by_contra hc
            exact hne hc
          have hx : (x.productURL == "") = true := by
            rw [hemp]
            exact beq_self_eq_true ""
          simp only [List.filter_cons, hx, if_true]
          rw [dedupeAux_keeps_keyless xs seen]

/-- For any nonempty key not yet seen, the first record the dedup output
holds under that key is exactly the first such record of the input. -/
theorem dedupeAux_find_eq :
    ∀ (xs : List Item) (seen : List String) (k : String), k ≠ "" → k ∉ seen →
      (dedupeAux xs seen).find? (fun x => x.productURL == k) =
        xs.find? (fun x => x.productURL == k)
  | [], _, _, _, _ => rfl
  | x :: xs, seen, k, hk, hks => by
      simp only [dedupeAux]
      split
      · rename_i hcond
        have hxk : (x.productURL == k) = false := by
          refine beq_eq_false_iff_ne.mpr ?_
          intro he
          rw [he] at hcond
          exact hks hcond.2
        simp only [List.find?_cons, hxk]
        exact dedupeAux_find_eq xs seen k hk hks
      · split
        · rename_i hne
          by_cases hxk : x.productURL = k
          · have hx : (x.productURL == k) = true := by
              rw [hxk]
              exact beq_self_eq_true k
            simp only [List.find?_cons, hx]
          · have hx : (x.productURL == k) = false := beq_eq_false_iff_ne.mpr hxk
            simp only [List.find?_cons, hx]
            refine dedupeAux_find_eq xs _ k hk ?_
            intro hmem
            rcases List.mem_cons.mp hmem with h1 | h2
            · exact hxk h1.symm
            · exact hks h2
        · rename_i hne
          have hemp : x.productURL = "" := by
            by_contra hc
            exact hne hc
          have hx : (x.productURL == k) = false := by
            refine beq_eq_false_iff_ne.mpr ?_
            rw [hemp]
            exact fun he => hk he.symm
          simp only [List.find?_cons, hx]
          exact dedupeAux_find_eq xs seen k hk hks

/-- C8: the dedup never lengthens its input, its output is a sublist of the
input (first-seen order and field values preserved), every record with an
empty identity key survives - two otherwise identical keyless records both
remain - and for every nonempty key the survivor is the first occurrence,
with its original field values. -/
theorem c8_dedupe_properties (xs : List Item) :
    (dedupeItems xs).length ≤ xs.length ∧
    List.Sublist (dedupeItems xs) xs ∧
    (dedupeItems xs).filter (fun x => x.productURL == "") =
      xs.filter (fun x => x.productURL == "") ∧
    ∀ k : String, k ≠ "" →
      (dedupeItems xs).find? (fun x => x.productURL == k) =
        xs.find? (fun x => x.productURL == k) := by
  refine ⟨(dedupeAux_sublist xs []).length_le, dedupeAux_sublist xs [],
    dedupeAux_keeps_keyless xs [], ?_⟩
  intro k hk
  exact dedupeAux_find_eq xs [] k hk (by simp)

/-- _to_float fixes every finite-or-NA cell. -/
theorem to_float_fixed (c : Cell) (h : cellFiniteOrNA c = true) : _to_float c = c := by
  cases c with
  | na => rfl
  | num v =>
      cases v with
      | finite q => rfl
      | inf => exact nomatch h
      | ninf => exact nomatch h
      | nan => exact nomatch h
  | s t => exact nomatch h

/-- _to_percent fixes every finite-or-NA cell. -/
theorem to_percent_fixed (c : Cell) (h : cellFiniteOrNA c = true) : _to_percent c = c := by
  cases c with
  | na => rfl
  | num v =>
      cases v with
      | finite q => rfl
      | inf => exact nomatch h
      | ninf => exact nomatch h
      | nan => exact nomatch h
  | s t => exact nomatch h

/-- C9, reconciler idempotence, amended: reconciling an already-reconciled
record against the same canonical columns returns it unchanged provided
every coerced numeric cell of the first pass landed in the finite-or-NA
fragment; a cell that overflowed to an IEEE infinity is re-coerced to
Absent by the second pass (see the counterexample), which is the only
obstruction. -/
theorem c9_reconcile_idempotent_on_finite (r : PSXRecord)
    (h1 : cellFiniteOrNA (reconcileRecord r).high = true)
    (h2 : cellFiniteOrNA (reconcileRecord r).low = true)
    (h3 : cellFiniteOrNA (reconcileRecord r).current = true)
    (h4 : cellFiniteOrNA (reconcileRecord r).change = true)
    (h5 : cellFiniteOrNA (reconcileRecord r).changePct = true) :
    reconcileRecord (reconcileRecord r) = reconcileRecord r := by
  simp only [reconcileRecord] at h1 h2 h3 h4 h5 ⊢
  rw [to_float_fixed _ h1, to_float_fixed _ h2, to_float_fixed _ h3,
    to_float_fixed _ h4, to_percent_fixed _ h5]

/-- C9 witness: the amended idempotence at the all-NA record. -/
theorem c9_witness :
    reconcileRecord (reconcileRecord
        (PSXRecord.mk Cell.na Cell.na Cell.na Cell.na Cell.na Cell.na Cell.na
          Cell.na Cell.na)) =
      reconcileRecord
        (PSXRecord.mk Cell.na Cell.na Cell.na Cell.na Cell.na Cell.na Cell.na
          Cell.na Cell.na) :=
  c9_reconcile_idempotent_on_finite
    (PSXRecord.mk Cell.na Cell.na Cell.na Cell.na Cell.na Cell.na Cell.na
      Cell.na Cell.na) rfl rfl rfl rfl rfl

/-- C9 counterexample to the claim as stated: a record whose Current cell
reads "1e999" coerces to the infinity inf on the first pass; the second
pass sends str(inf) = "inf" through the cleaner, which strips its letters,
so Current collapses to Absent and the reconciled records differ. -/
theorem c9_counterexample :
    reconcileRecord (reconcileRecord
        (PSXRecord.mk Cell.na Cell.na Cell.na Cell.na Cell.na (Cell.s "1e999")
          Cell.na Cell.na Cell.na)) ≠
      reconcileRecord
        (PSXRecord.mk Cell.na Cell.na Cell.na Cell.na Cell.na (Cell.s "1e999")
          Cell.na Cell.na Cell.na) := by
  decide

/-- C10: parse_int takes the integer of the last digit group (commas
stripped) while parse_float takes the number of the first regex match; on
"3 of 12,000" they give 12000 and 3.0 respectively. -/
theorem c10_last_group_int_first_match_float :
    (∀ s : String, parse_int s = lastGroupInt s ∧ parse_float s = firstMatchFloat s) ∧
    parse_int "3 of 12,000" = some 12000 ∧
    parse_float "3 of 12,000" = some (PyNum.finite 3) := by
  refine ⟨fun s => ⟨?_, ?_⟩, by decide, ?_⟩
  · by_cases hs : s = ""
    · subst hs; decide
    · unfold parse_int lastGroupInt
      rw [if_neg hs]
      cases h : (digitGroups (pintPrep s)).getLast? <;> simp [h]
  · by_cases hs : s = ""
    · subst hs; decide
    · unfold parse_float firstMatchFloat
      rw [if_neg hs]
      cases h : firstNumMatch s.toList <;> simp [h]
  · have h : parse_float "3 of 12,000" = some (PyNum.finite (mkRat 3 1)) := by decide
    rw [h]
    norm_num

end Scrape
